import Mathlib

/-!
Verification of the log-processing pipeline in
`src/infra/lambda/log_processor.py` (fhir-bridge repository).

The Python module is a single handler over a decoded CloudWatch Logs batch:
it classifies the batch by substring of the log-group name, runs one of
three extractors (application / security / audit), forwards derived data to
external sinks (CloudWatch metrics, SNS alerts, S3 objects) and stores the
raw batch, converting any uncaught error into a 500 response.

Embedding choices:
* Strings are Lean `String`s viewed as `List Char`; Python's `pat in s`
  substring test is `occursIn pat.data s.data`; `str.lower()` is
  `List.map Char.toLower` (the messages of interest are ASCII).
* Python's `re.search(r'(\d+)ms', message)` is modelled by `findMs`:
  scan start positions left to right, at each digit position take the
  maximal digit run (`List.takeWhile Char.isDigit`, the greedy `\d+`) and
  test that the literal "ms" follows; digits are ASCII `Char.isDigit`.
* Numbers carried by metric calls are rationals (`Rat`).  The integer
  counts are exact in Python and carried unchanged.  The average
  `sum(...) / len(...)` is Python float true division: its value is the
  IEEE-754 binary64 rounding (round to nearest, ties to even) of the
  exact quotient, modelled by `floatDiv` with an unbounded exponent;
  quotients outside binary64's exponent range (CPython then raises
  `OverflowError`, or returns a subnormal) are outside this model.
* External collaborators (base64/gzip/JSON envelope decoding, `json.loads`
  on audit messages, boto3 sink calls) are parameters of an `Env`
  structure: each is a function returning `Except String _`, an `.error`
  standing for a raised exception.
* The extractor loops, which accumulate counters and append to fresh local
  lists, are `List.foldl` over an accumulator record.
-/

/-- `leadsWith p s` : the list `s` starts with `p` (models testing a
literal at a position of a Python string). -/
def leadsWith : List Char → List Char → Bool
  | [], _ => true
  | _ :: _, [] => false
  | p :: ps, c :: cs => p == c && leadsWith ps cs

/-- `occursIn pat s` : `pat` occurs as a contiguous run inside `s`
(models Python's `pat in s` on strings). -/
def occursIn (pat : List Char) : List Char → Bool
  | [] => pat.isEmpty
  | c :: cs => leadsWith pat (c :: cs) || occursIn pat cs

/-- Substring test on `String`s, argument order as in Python `pat in s`. -/
def strContains (s pat : String) : Bool :=
  occursIn pat.data s.data

/-- Python `str.lower()` on the character list (ASCII). -/
def lowerChars (s : List Char) : List Char :=
  s.map Char.toLower

/-- One decoded CloudWatch log event: `{timestamp, message}`
(spec name: LogRecord). -/
structure LogRecord where
  timestamp : Int
  message : String
deriving DecidableEq, Repr

/-- The decoded batch projected from the envelope:
`logGroup`, `logStream`, `logEvents` (spec name: LogBatch). -/
structure LogBatch where
  logGroup : String
  logStream : String
  logEvents : List LogRecord
deriving DecidableEq, Repr

/-- The four routing outcomes of the log-group dispatch. -/
inductive Category where
  | application
  | security
  | audit
  | unknown
deriving DecidableEq, Repr

/-- The log-group dispatch of `handler` (log_processor.py lines 26-31):
`if 'application' in log_group: ... elif 'security' in ... elif 'audit'
in ...`, case-sensitive, first match wins, else no extractor. -/
def classify (log_group : String) : Category :=
  if strContains log_group "application" then Category.application
  else if strContains log_group "security" then Category.security
  else if strContains log_group "audit" then Category.audit
  else Category.unknown

/-- `re.search(r'(\d+)ms', message)` (log_processor.py line 129): scan
start positions left to right; at a digit position, the greedy `\d+`
takes the maximal digit run, and the match succeeds when the literal
"ms" follows (no shorter run can succeed from the same start, since the
character after a shorter run is a digit, not 'm').  Returns the matched
digit run, or `none`. -/
def findMs : List Char → Option (List Char)
  | [] => none
  | c :: cs =>
      if c.isDigit && leadsWith ['m', 's'] (List.dropWhile Char.isDigit (c :: cs)) then
        some (List.takeWhile Char.isDigit (c :: cs))
      else findMs cs

/-- Base-10 value of a digit run (Python `int(match.group(1))`). -/
def digitsVal (run : List Char) : Nat :=
  run.foldl (fun a c => a * 10 + (c.toNat - 48)) 0

/-- `extract_duration` (log_processor.py lines 126-130):
`match = re.search(r'(\d+)ms', message); return int(match.group(1)) if
match else 0`. -/
def extract_duration (message : String) : Nat :=
  match findMs message.data with
  | some run => digitsVal run
  | none => 0

/-- One entry of `performance_metrics` (spec: a performance sample):
`{'timestamp': ..., 'duration': ..., 'message': ...}`. -/
structure PerfSample where
  timestamp : Int
  duration : Nat
  message : String
deriving DecidableEq, Repr

/-- The state the `process_application_logs` loop accumulates:
`error_count` and `performance_metrics` (spec: ApplicationResult). -/
structure ApplicationResult where
  error_count : Nat
  performance_metrics : List PerfSample
deriving DecidableEq, Repr

/-- One iteration of the `process_application_logs` loop
(log_processor.py lines 53-71): count `'ERROR' in message`, and when
`'Request completed' in message` append a sample with the extracted
duration.  (`extract_duration` is total here, so the `try/except` around
it never fires in this model.) -/
def appStep (acc : ApplicationResult) (r : LogRecord) : ApplicationResult :=
  let acc1 :=
    if occursIn "ERROR".data r.message.data then
      { acc with error_count := acc.error_count + 1 }
    else acc
  if occursIn "Request completed".data r.message.data then
    { acc1 with performance_metrics :=
        acc1.performance_metrics ++
          [{ timestamp := r.timestamp
             duration := extract_duration r.message
             message := r.message }] }
  else acc1

/-- `process_application_logs` (log_processor.py lines 48-71), the pure
extraction part: fold the loop body over the events. -/
def process_application_logs (log_events : List LogRecord) : ApplicationResult :=
  log_events.foldl appStep { error_count := 0, performance_metrics := [] }

/-- One entry of `suspicious_activities`: `{'timestamp', 'message'}`. -/
structure SuspiciousActivity where
  timestamp : Int
  message : String
deriving DecidableEq, Repr

/-- The state the `process_security_logs` loop accumulates (spec:
SecurityResult). -/
structure SecurityResult where
  failed_auth_count : Nat
  suspicious_activities : List SuspiciousActivity
deriving DecidableEq, Repr

/-- One iteration of the `process_security_logs` loop (log_processor.py
lines 86-96): case-insensitive checks on `message.lower()` for
"authentication failed" and for any of "unauthorized" / "forbidden" /
"blocked"; the two checks are independent. -/
def secStep (acc : SecurityResult) (r : LogRecord) : SecurityResult :=
  let low := lowerChars r.message.data
  let acc1 :=
    if occursIn "authentication failed".data low then
      { acc with failed_auth_count := acc.failed_auth_count + 1 }
    else acc
  if occursIn "unauthorized".data low || occursIn "forbidden".data low
      || occursIn "blocked".data low then
    { acc1 with suspicious_activities :=
        acc1.suspicious_activities ++ [{ timestamp := r.timestamp, message := r.message }] }
  else acc1

/-- `process_security_logs` (log_processor.py lines 81-96), the pure
extraction part. -/
def process_security_logs (log_events : List LogRecord) : SecurityResult :=
  log_events.foldl secStep { failed_auth_count := 0, suspicious_activities := [] }

/-- JSON values, the result type of the external `json.loads`. -/
inductive Json where
  | null
  | bool (b : Bool)
  | num (n : Int)
  | str (s : String)
  | arr (xs : List Json)
  | obj (fields : List (String × Json))

/-- Python `dict.get(key)` on a parsed JSON object: the value of the
first binding of `key`, else `None`. -/
def Json.getField (fields : List (String × Json)) (key : String) : Json :=
  match fields.find? (fun kv => kv.fst == key) with
  | some kv => kv.snd
  | none => Json.null

/-- One entry of `audit_events` (log_processor.py lines 112-119). -/
structure AuditEvent where
  timestamp : Int
  userId : Json
  action : Json
  resourceType : Json
  resourceId : Json
  outcome : Json

/-- One iteration of the `process_audit_logs` loop (log_processor.py
lines 109-121): `json.loads(event['message'])`, then project the five
fields with `.get`.  A parse failure, or a parse to a non-object (whose
`.get` raises `AttributeError`), is swallowed by the bare `except` and
the record is dropped.  `parse` is the external `json.loads`. -/
def auditStep (parse : String → Except String Json)
    (acc : List AuditEvent) (r : LogRecord) : List AuditEvent :=
  match parse r.message with
  | Except.error _ => acc
  | Except.ok (Json.obj fields) =>
      acc ++ [{ timestamp := r.timestamp
                userId := Json.getField fields "userId"
                action := Json.getField fields "action"
                resourceType := Json.getField fields "resourceType"
                resourceId := Json.getField fields "resourceId"
                outcome := Json.getField fields "outcome" }]
  | Except.ok _ => acc

/-- `process_audit_logs` (log_processor.py lines 105-121), the pure
extraction part. -/
def process_audit_logs (parse : String → Except String Json)
    (log_events : List LogRecord) : List AuditEvent :=
  log_events.foldl (auditStep parse) []

/-- One outward call made by the pipeline (spec: Sink Adapter calls):
a CloudWatch metric, an SNS security alert, the raw-batch S3 store, or
the audit-summary S3 store.  Metric values are rationals: Python passes
an exact int for the counts and `sum/len` for the average. -/
inductive SinkCall where
  | metric (name : String) (value : Rat) (ns : String)
  | securityAlert (activities : List SuspiciousActivity)
  | storeRaw (batch : LogBatch)
  | auditSummary (events : List AuditEvent)

/-- Sum of the `duration` entries of the collected samples
(`sum(m['duration'] for m in performance_metrics)`). -/
def durationSum (samples : List PerfSample) : Nat :=
  (samples.map PerfSample.duration).sum

/-- Bit length of `n` (position of its highest set bit plus one),
computed with structural fuel so the kernel can evaluate it. -/
def bitsAux : Nat → Nat → Nat
  | 0, _ => 0
  | fuel + 1, n => if n = 0 then 0 else bitsAux fuel (n / 2) + 1

/-- Bit length of `n`: 0 for 0, else the unique `k` with
`2^(k-1) ≤ n < 2^k`. -/
def bits (n : Nat) : Nat := bitsAux n n

/-- Round `q + r/d` (with `0 ≤ r < d`) to an integer, round to nearest
with ties to even. -/
def rndHalfEven (q r d : Nat) : Nat :=
  if 2 * r < d then q
  else if d < 2 * r then q + 1
  else if q % 2 = 0 then q else q + 1

/-- Pack mantissa `m` and the exponent difference `x - y` as
`(m, p, q)` meaning the value `m * 2^p / 2^q`, keeping everything in
`Nat`. -/
def mkParts (m x y : Nat) : Nat × Nat × Nat :=
  if y ≤ x then (m, x - y, 0) else (m, 0, y - x)

/-- Mantissa/exponent of the binary64 rounding of `a / b`: scale `a/b`
into `[2^52, 2^54)` using the operands' bit lengths, take the floor and
remainder of the scaled integer division, and round to 53 significant
bits, ties to even (one extra halving step when the scaled quotient
reached 54 bits).  Validated against CPython's `int / int` on the
representable range. -/
def floatDivParts (a b : Nat) : Nat × Nat × Nat :=
  if a = 0 then (0, 0, 0)
  else if b = 0 then (0, 0, 0)
  else
    let x := bits a
    let y := bits b
    let N := a * 2 ^ (53 + y)
    let D := b * 2 ^ x
    let n0 := N / D
    let r := N % D
    if n0 < 2 ^ 53 then
      mkParts (rndHalfEven n0 r D) x (y + 53)
    else
      let n1 := n0 / 2
      let m :=
        if n0 % 2 = 0 then n1
        else if r = 0 then (if n1 % 2 = 0 then n1 else n1 + 1)
        else n1 + 1
      mkParts m x (y + 52)

/-- CPython's float true division `a / b` on nonnegative ints
(log_processor.py line 78 computes `sum(...) / len(...)` this way): the
IEEE-754 binary64 value nearest the exact quotient, ties to even.  The
exponent is unbounded here: quotients at or beyond `2^1024` (where
CPython raises `OverflowError`) or in the subnormal range are outside
the model. -/
def floatDiv (a b : Nat) : Rat :=
  match floatDivParts a b with
  | (m, p, q) => (m : Rat) * 2 ^ p / 2 ^ q

/-- The sink calls of `process_application_logs` (log_processor.py lines
74-79): `ApplicationErrors` when `error_count > 0`, then
`AverageResponseTime`, the float division `sum/len` of the collected
durations, when samples were collected. -/
def app_sink_calls (res : ApplicationResult) : List SinkCall :=
  (if 0 < res.error_count then
    [SinkCall.metric "ApplicationErrors" (res.error_count : Rat) "FHIRBridge/Application"]
  else [])
  ++
  (if res.performance_metrics.isEmpty then []
  else
    [SinkCall.metric "AverageResponseTime"
      (floatDiv (durationSum res.performance_metrics) res.performance_metrics.length)
      "FHIRBridge/Performance"])

/-- The sink calls of `process_security_logs` (log_processor.py lines
98-103). -/
def sec_sink_calls (res : SecurityResult) : List SinkCall :=
  (if 0 < res.failed_auth_count then
    [SinkCall.metric "FailedAuthentications" (res.failed_auth_count : Rat) "FHIRBridge/Security"]
  else [])
  ++
  (if res.suspicious_activities.isEmpty then []
  else [SinkCall.securityAlert res.suspicious_activities])

/-- The sink call of `process_audit_logs` (log_processor.py lines
123-124): store the summary when any audit event was collected. -/
def audit_sink_calls (events : List AuditEvent) : List SinkCall :=
  if events.isEmpty then [] else [SinkCall.auditSummary events]

/-- The extractor dispatch of `handler` (log_processor.py lines 26-31):
at most one extractor runs, chosen by `classify`; its sink calls are the
calls it issues while running. -/
def extraction_calls (parse : String → Except String Json)
    (cat : Category) (log_events : List LogRecord) : List SinkCall :=
  match cat with
  | Category.application => app_sink_calls (process_application_logs log_events)
  | Category.security => sec_sink_calls (process_security_logs log_events)
  | Category.audit => audit_sink_calls (process_audit_logs parse log_events)
  | Category.unknown => []

/-- All outward calls of one invocation after a successful decode
(log_processor.py lines 26-34): the chosen extractor's calls, then
`store_processed_logs(log_data)` — the raw batch is always stored. -/
def pipeline_calls (parse : String → Except String Json)
    (batch : LogBatch) : List SinkCall :=
  extraction_calls parse (classify batch.logGroup) batch.logEvents
    ++ [SinkCall.storeRaw batch]

/-- The transport event: `event['awslogs']['data']`, an opaque base64
string. -/
structure Event where
  data : String
deriving DecidableEq, Repr

/-- The external collaborators of one invocation.  `decode` is the
envelope pipeline base64 → gzip → `json.loads` → field projection
(log_processor.py lines 17-23); `parse` is `json.loads` on an audit
message; `runSink` performs one boto3 call.  An `.error m` models a
raised exception with text `m`. -/
structure Env where
  decode : Event → Except String LogBatch
  parse : String → Except String Json
  runSink : SinkCall → Except String Unit

/-- Run the outward calls in order; the first raised exception aborts
the rest (nothing inside the pipeline catches a sink failure). -/
def runCalls (env : Env) : List SinkCall → Except String Unit
  | [] => Except.ok ()
  | c :: cs =>
      match env.runSink c with
      | Except.ok _ => runCalls env cs
      | Except.error m => Except.error m

/-- The body of the `try:` block of `handler` (log_processor.py lines
15-34): decode the envelope, run the dispatched extractor's sink calls,
store the raw batch. -/
def runPipeline (env : Env) (e : Event) : Except String Unit :=
  match env.decode e with
  | Except.error m => Except.error m
  | Except.ok batch => runCalls env (pipeline_calls env.parse batch)

/-- The handler's response `{'statusCode': ..., 'body': ...}`; `body`
is modelled as the payload string (the outer `json.dumps` quoting is a
serialization detail). -/
structure Response where
  statusCode : Nat
  body : String
deriving DecidableEq, Repr

/-- `handler` (log_processor.py lines 11-46): a 200 with a static body
when the whole pipeline ran, else the blanket `except Exception`
produces a 500 whose body embeds the error text. -/
def handler (env : Env) (e : Event) : Response :=
  match runPipeline env e with
  | Except.ok _ =>
      { statusCode := 200, body := "Log processing completed successfully" }
  | Except.error m =>
      { statusCode := 500, body := "Error processing logs: " ++ m }

/-- The declarative shape of a `\d+ms` occurrence in `s`: at position
`i` there are `L ≥ 1` digits and the literal "ms" follows. -/
def msPatternAt (s : List Char) (i L : Nat) : Prop :=
  1 ≤ L ∧ ((s.drop i).take L).length = L
    ∧ ((s.drop i).take L).all Char.isDigit = true
    ∧ leadsWith ['m', 's'] ((s.drop i).drop L) = true

/-- Does a metric sink call carry the given metric name? -/
def isMetricNamed (n : String) : SinkCall → Bool
  | SinkCall.metric name _ _ => name == n
  | _ => false

/-- Per-record sample projection of the application loop: the sample a
record contributes to `performance_metrics`, if any. -/
def appProj (r : LogRecord) : Option PerfSample :=
  if occursIn "Request completed".data r.message.data then
    some { timestamp := r.timestamp
           duration := extract_duration r.message
           message := r.message }
  else none

/-- Per-record projection of the security loop onto
`suspicious_activities`. -/
def secProj (r : LogRecord) : Option SuspiciousActivity :=
  if occursIn "unauthorized".data (lowerChars r.message.data)
      || occursIn "forbidden".data (lowerChars r.message.data)
      || occursIn "blocked".data (lowerChars r.message.data) then
    some { timestamp := r.timestamp, message := r.message }
  else none

/-- Per-record projection of the audit loop onto `audit_events`:
`none` models the record being dropped by the bare `except`. -/
def auditProj (parse : String → Except String Json) (r : LogRecord) : Option AuditEvent :=
  match parse r.message with
  | Except.ok (Json.obj fields) =>
      some { timestamp := r.timestamp
             userId := Json.getField fields "userId"
             action := Json.getField fields "action"
             resourceType := Json.getField fields "resourceType"
             resourceId := Json.getField fields "resourceId"
             outcome := Json.getField fields "outcome" }
  | _ => none

/-- A concrete stand-in for `json.loads` used in witnesses: parses only
the literal `{\x7d` (the empty object), failing on everything else. -/
def parseEmptyObj : String → Except String Json :=
  fun s => if s == "{}" then Except.ok (Json.obj []) else Except.error "Expecting value"

/-- A concrete environment used in witnesses: decoding always succeeds
with the given batch and every sink call succeeds. -/
def allOkEnv (batch : LogBatch) : Env where
  decode := fun _ => Except.ok batch
  parse := parseEmptyObj
  runSink := fun _ => Except.ok ()

/-- A concrete environment used in witnesses: the envelope decode raises. -/
def decodeFailEnv (msg : String) : Env where
  decode := fun _ => Except.error msg
  parse := parseEmptyObj
  runSink := fun _ => Except.ok ()

instance (s : List Char) (i L : Nat) : Decidable (msPatternAt s i L) := by
  unfold msPatternAt
  exact inferInstance

/-- C1: the classifier tests "application", then "security", then "audit"
(case-sensitive containment), selects the first match, with precedence
application > security > audit, and yields `unknown` when none occurs. -/
theorem classify_first_match_order (g : String) :
    (strContains g "application" = true → classify g = Category.application)
    ∧ (strContains g "application" = false → strContains g "security" = true →
        classify g = Category.security)
    ∧ (strContains g "application" = false → strContains g "security" = false →
        strContains g "audit" = true → classify g = Category.audit)
    ∧ (strContains g "application" = false → strContains g "security" = false →
        strContains g "audit" = false → classify g = Category.unknown) := by
  refine ⟨?_, ?_, ?_, ?_⟩ <;> intros <;> simp_all [classify]

/-- Witness for C1: a group containing all three substrings goes to
`application`; one containing "security" and "audit" only goes to
`security`; an "audit"-only group goes to `audit`; a group containing
none (also not case-insensitively matching) goes to `unknown`. -/
theorem classify_first_match_order_witness :
    classify "x-application-security-audit" = Category.application
    ∧ classify "x-security-audit" = Category.security
    ∧ classify "x-audit" = Category.audit
    ∧ classify "x-APPLICATION" = Category.unknown :=
  ⟨(classify_first_match_order "x-application-security-audit").1 (by decide),
   (classify_first_match_order "x-security-audit").2.1 (by decide) (by decide),
   (classify_first_match_order "x-audit").2.2.1 (by decide) (by decide) (by decide),
   (classify_first_match_order "x-APPLICATION").2.2.2 (by decide) (by decide) (by decide)⟩

/-- Field view of one application-loop step: the error counter moves by
the "ERROR" check alone. -/
theorem appStep_error_count (acc : ApplicationResult) (r : LogRecord) :
    (appStep acc r).error_count =
      acc.error_count + (if occursIn "ERROR".data r.message.data then 1 else 0) := by
  unfold appStep
  by_cases h1 : occursIn "ERROR".data r.message.data <;>
    by_cases h2 : occursIn "Request completed".data r.message.data <;>
      simp [h1, h2]

/-- Field view of one application-loop step: the sample list grows by
the per-record projection alone. -/
theorem appStep_samples (acc : ApplicationResult) (r : LogRecord) :
    (appStep acc r).performance_metrics =
      acc.performance_metrics ++ (appProj r).toList := by
  unfold appStep appProj
  by_cases h1 : occursIn "ERROR".data r.message.data <;>
    by_cases h2 : occursIn "Request completed".data r.message.data <;>
      simp [h1, h2]

/-- The application loop, from any accumulator: counter and sample list
are the pointwise count and projection of the traversed events. -/
theorem appFold (events : List LogRecord) (acc : ApplicationResult) :
    (events.foldl appStep acc).error_count
        = acc.error_count + events.countP (fun r => occursIn "ERROR".data r.message.data)
    ∧ (events.foldl appStep acc).performance_metrics
        = acc.performance_metrics ++ events.filterMap appProj := by
  induction events generalizing acc with
  | nil => simp
  | cons r rs ih =>
      obtain ⟨ih1, ih2⟩ := ih (appStep acc r)
      refine ⟨?_, ?_⟩
      · rw [List.foldl_cons, ih1, appStep_error_count, List.countP_cons]
        by_cases h : occursIn "ERROR".data r.message.data
        · simp [h]
          omega
        · simp [h]
      · rw [List.foldl_cons, ih2, appStep_samples, List.filterMap_cons]
        cases h : appProj r <;> simp [h]

/-- `error_count` of a run of `process_application_logs` is the number
of records whose message contains "ERROR". -/
theorem process_application_logs_error_count (events : List LogRecord) :
    (process_application_logs events).error_count
      = events.countP (fun r => occursIn "ERROR".data r.message.data) := by
  have h := (appFold events { error_count := 0, performance_metrics := [] }).1
  simpa [process_application_logs] using h

/-- The samples of a run of `process_application_logs` are the pointwise
projections of the records, in order. -/
theorem process_application_logs_samples (events : List LogRecord) :
    (process_application_logs events).performance_metrics
      = events.filterMap appProj := by
  have h := (appFold events { error_count := 0, performance_metrics := [] }).2
  simpa [process_application_logs] using h

/-- C8: `error_count` counts exactly the records whose message contains
the case-sensitive literal "ERROR", and the "ApplicationErrors" metric
(namespace "FHIRBridge/Application", value `error_count`) is emitted iff
`error_count > 0`. -/
theorem application_errors_metric (events : List LogRecord) :
    (process_application_logs events).error_count
        = events.countP (fun r => occursIn "ERROR".data r.message.data)
    ∧ (app_sink_calls (process_application_logs events)).countP
          (isMetricNamed "ApplicationErrors")
        = (if 0 < (process_application_logs events).error_count then 1 else 0)
    ∧ (0 < (process_application_logs events).error_count →
        SinkCall.metric "ApplicationErrors"
            ((process_application_logs events).error_count : Rat)
            "FHIRBridge/Application"
          ∈ app_sink_calls (process_application_logs events)) := by
  refine ⟨process_application_logs_error_count events, ?_, ?_⟩
  · unfold app_sink_calls
    by_cases h : 0 < (process_application_logs events).error_count <;>
      by_cases h2 : (process_application_logs events).performance_metrics.isEmpty <;>
        simp [h, h2, isMetricNamed]
  · intro h
    unfold app_sink_calls
    simp [h]

/-- Witness for C8: one "ERROR boom" record yields the metric. -/
theorem application_errors_metric_witness :
    SinkCall.metric "ApplicationErrors"
        ((process_application_logs [{ timestamp := 2, message := "ERROR boom" }]).error_count : Rat)
        "FHIRBridge/Application"
      ∈ app_sink_calls (process_application_logs [{ timestamp := 2, message := "ERROR boom" }]) :=
  (application_errors_metric [{ timestamp := 2, message := "ERROR boom" }]).2.2 (by decide)

/-- C5 (amended): exactly one "AverageResponseTime" metric (namespace
"FHIRBridge/Performance") is emitted when samples were collected, none
otherwise, and its value is the binary64 float division `sum/len` of
all collected durations (zero durations included in the sum) — the
IEEE-754 rounding of the unweighted mean, not in general the exact
rational mean. -/
theorem average_response_time_metric (events : List LogRecord) :
    (app_sink_calls (process_application_logs events)).countP
        (isMetricNamed "AverageResponseTime")
      = (if (process_application_logs events).performance_metrics.isEmpty then 0 else 1)
    ∧ ((process_application_logs events).performance_metrics ≠ [] →
        SinkCall.metric "AverageResponseTime"
            (floatDiv (durationSum (process_application_logs events).performance_metrics)
              (process_application_logs events).performance_metrics.length)
            "FHIRBridge/Performance"
          ∈ app_sink_calls (process_application_logs events)) := by
  constructor
  · unfold app_sink_calls
    by_cases h : (process_application_logs events).performance_metrics.isEmpty <;>
      by_cases h2 : 0 < (process_application_logs events).error_count <;>
        simp [h, h2, isMetricNamed]
  · intro h
    have hne : ¬ (process_application_logs events).performance_metrics.isEmpty := by
      simpa [List.isEmpty_iff] using h
    unfold app_sink_calls
    simp [hne]

/-- Counterexample to C5 as stated: durations 1, 1, 0 (three
"Request completed" records) emit the AverageResponseTime value
6004799503160661/2^53 — the double CPython prints as
0.6666666666666666 — which is not the exact mean 2/3. -/
theorem average_response_time_not_exact_mean :
    app_sink_calls (process_application_logs
        [{ timestamp := 1, message := "Request completed 1ms" },
         { timestamp := 2, message := "Request completed 1ms" },
         { timestamp := 3, message := "Request completed 0ms" }])
      = [SinkCall.metric "AverageResponseTime"
          ((6004799503160661 : Rat) / 9007199254740992) "FHIRBridge/Performance"]
    ∧ durationSum (process_application_logs
        [{ timestamp := 1, message := "Request completed 1ms" },
         { timestamp := 2, message := "Request completed 1ms" },
         { timestamp := 3, message := "Request completed 0ms" }]).performance_metrics = 2
    ∧ (process_application_logs
        [{ timestamp := 1, message := "Request completed 1ms" },
         { timestamp := 2, message := "Request completed 1ms" },
         { timestamp := 3, message := "Request completed 0ms" }]).performance_metrics.length = 3
    ∧ (6004799503160661 : Rat) / 9007199254740992 ≠ (2 : Rat) / 3 := by
  have hec : (process_application_logs
      [{ timestamp := 1, message := "Request completed 1ms" },
       { timestamp := 2, message := "Request completed 1ms" },
       { timestamp := 3, message := "Request completed 0ms" }]).error_count = 0 := by decide
  have hpm : (process_application_logs
      [{ timestamp := 1, message := "Request completed 1ms" },
       { timestamp := 2, message := "Request completed 1ms" },
       { timestamp := 3, message := "Request completed 0ms" }]).performance_metrics
      = [{ timestamp := 1, duration := 1, message := "Request completed 1ms" },
         { timestamp := 2, duration := 1, message := "Request completed 1ms" },
         { timestamp := 3, duration := 0, message := "Request completed 0ms" }] := by decide
  have hparts : floatDivParts 2 3 = (6004799503160661, 0, 53) := by decide
  have hval : floatDiv 2 3 = (6004799503160661 : Rat) / 9007199254740992 := by
    rw [floatDiv, hparts]
    norm_num
  refine ⟨?_, ?_, ?_, by norm_num⟩
  · unfold app_sink_calls
    rw [hec, hpm]
    simp [durationSum, hval]
  · rw [hpm]
    simp [durationSum]
  · rw [hpm]
    rfl

/-- Witness for the amended C5: one "Request completed in 100ms" record
yields the average metric with the float division of 100 by 1. -/
theorem average_response_time_metric_witness :
    SinkCall.metric "AverageResponseTime"
        (floatDiv (durationSum (process_application_logs
            [{ timestamp := 3, message := "Request completed in 100ms" }]).performance_metrics)
          (process_application_logs
            [{ timestamp := 3, message := "Request completed in 100ms" }]).performance_metrics.length)
        "FHIRBridge/Performance"
      ∈ app_sink_calls (process_application_logs
          [{ timestamp := 3, message := "Request completed in 100ms" }]) :=
  (average_response_time_metric
      [{ timestamp := 3, message := "Request completed in 100ms" }]).2 (by decide)

/-- Field view of one security-loop step: the counter moves by the
lowered "authentication failed" check alone. -/
theorem secStep_count (acc : SecurityResult) (r : LogRecord) :
    (secStep acc r).failed_auth_count =
      acc.failed_auth_count +
        (if occursIn "authentication failed".data (lowerChars r.message.data) then 1 else 0) := by
  unfold secStep
  by_cases h1 : occursIn "authentication failed".data (lowerChars r.message.data) <;>
    by_cases h2 : (occursIn "unauthorized".data (lowerChars r.message.data)
        || occursIn "forbidden".data (lowerChars r.message.data)
        || occursIn "blocked".data (lowerChars r.message.data)) = true <;>
      simp [h1, h2]

/-- Field view of one security-loop step: the activity list grows by
the per-record projection alone. -/
theorem secStep_activities (acc : SecurityResult) (r : LogRecord) :
    (secStep acc r).suspicious_activities =
      acc.suspicious_activities ++ (secProj r).toList := by
  unfold secStep secProj
  by_cases h1 : occursIn "authentication failed".data (lowerChars r.message.data) <;>
    by_cases h2 : (occursIn "unauthorized".data (lowerChars r.message.data)
        || occursIn "forbidden".data (lowerChars r.message.data)
        || occursIn "blocked".data (lowerChars r.message.data)) = true <;>
      simp [h1, h2]

/-- The security loop, from any accumulator: counter and activity list
are the pointwise count and projection of the traversed events. -/
theorem secFold (events : List LogRecord) (acc : SecurityResult) :
    (events.foldl secStep acc).failed_auth_count
        = acc.failed_auth_count
          + events.countP (fun r => occursIn "authentication failed".data (lowerChars r.message.data))
    ∧ (events.foldl secStep acc).suspicious_activities
        = acc.suspicious_activities ++ events.filterMap secProj := by
  induction events generalizing acc with
  | nil => simp
  | cons r rs ih =>
      obtain ⟨ih1, ih2⟩ := ih (secStep acc r)
      refine ⟨?_, ?_⟩
      · rw [List.foldl_cons, ih1, secStep_count, List.countP_cons]
        by_cases h : occursIn "authentication failed".data (lowerChars r.message.data)
        · simp [h]
          omega
        · simp [h]
      · rw [List.foldl_cons, ih2, secStep_activities, List.filterMap_cons]
        cases h : secProj r <;> simp [h]

/-- C6: both security checks read the lowercased message — the
auth-failure count is the number of records whose lowered message
contains "authentication failed", the suspicious list collects exactly
the records whose lowered message contains "unauthorized", "forbidden"
or "blocked" — and the checks are independent: one record satisfying
both contributes one increment and one activity entry. -/
theorem security_checks_case_insensitive (events : List LogRecord) :
    (process_security_logs events).failed_auth_count
        = events.countP (fun r => occursIn "authentication failed".data (lowerChars r.message.data))
    ∧ (process_security_logs events).suspicious_activities = events.filterMap secProj
    ∧ (∀ r : LogRecord,
        occursIn "authentication failed".data (lowerChars r.message.data) = true →
        occursIn "unauthorized".data (lowerChars r.message.data) = true →
        (process_security_logs [r]).failed_auth_count = 1
        ∧ (process_security_logs [r]).suspicious_activities
            = [{ timestamp := r.timestamp, message := r.message }]) := by
  refine ⟨?_, ?_, ?_⟩
  · have h := (secFold events { failed_auth_count := 0, suspicious_activities := [] }).1
    simpa [process_security_logs] using h
  · have h := (secFold events { failed_auth_count := 0, suspicious_activities := [] }).2
    simpa [process_security_logs] using h
  · intro r h1 h2
    constructor
    · have h := (secFold [r] { failed_auth_count := 0, suspicious_activities := [] }).1
      simp [process_security_logs] at h ⊢
      simp [h, List.countP_cons, h1]
    · have h := (secFold [r] { failed_auth_count := 0, suspicious_activities := [] }).2
      simp [process_security_logs] at h ⊢
      simp [h, secProj, h2]

/-- Witness for C6: "Unauthorized: AUTHENTICATION Failed" fires both
checks despite the mixed case. -/
theorem security_checks_case_insensitive_witness :
    (process_security_logs
        [{ timestamp := 7, message := "Unauthorized: AUTHENTICATION Failed" }]).failed_auth_count = 1
    ∧ (process_security_logs
        [{ timestamp := 7, message := "Unauthorized: AUTHENTICATION Failed" }]).suspicious_activities
      = [{ timestamp := 7, message := "Unauthorized: AUTHENTICATION Failed" }] :=
  (security_checks_case_insensitive []).2.2
    { timestamp := 7, message := "Unauthorized: AUTHENTICATION Failed" }
    (by decide) (by decide)

/-- One audit-loop step appends the per-record projection (empty when
the record's message does not parse to a JSON object). -/
theorem auditStep_eq (parse : String → Except String Json)
    (acc : List AuditEvent) (r : LogRecord) :
    auditStep parse acc r = acc ++ (auditProj parse r).toList := by
  unfold auditStep auditProj
  cases h : parse r.message with
  | error m => simp [h]
  | ok j => cases j <;> simp [h]

/-- The audit loop, from any accumulator, appends the pointwise
projections of the traversed events. -/
theorem auditFold (parse : String → Except String Json)
    (events : List LogRecord) (acc : List AuditEvent) :
    events.foldl (auditStep parse) acc = acc ++ events.filterMap (auditProj parse) := by
  induction events generalizing acc with
  | nil => simp
  | cons r rs ih =>
      rw [List.foldl_cons, ih, auditStep_eq, List.filterMap_cons]
      cases h : auditProj parse r <;> simp [h]

/-- C7: a record whose message does not parse to a JSON object (parse
raises, or yields a non-object whose `.get` raises) is silently dropped;
a record parsing to an object yields one audit event carrying the
record's timestamp and the five projected fields, each `null` when
absent — in particular a missing `outcome` key gives `outcome = null`. -/
theorem audit_events_projection (parse : String → Except String Json)
    (events : List LogRecord) :
    process_audit_logs parse events = events.filterMap (auditProj parse)
    ∧ (∀ (r : LogRecord) (m : String), parse r.message = Except.error m →
        auditProj parse r = none)
    ∧ (∀ (r : LogRecord) (j : Json), parse r.message = Except.ok j →
        (∀ fields, j ≠ Json.obj fields) → auditProj parse r = none)
    ∧ (∀ (r : LogRecord) (fields : List (String × Json)),
        parse r.message = Except.ok (Json.obj fields) →
        auditProj parse r = some
          { timestamp := r.timestamp
            userId := Json.getField fields "userId"
            action := Json.getField fields "action"
            resourceType := Json.getField fields "resourceType"
            resourceId := Json.getField fields "resourceId"
            outcome := Json.getField fields "outcome" }
        ∧ (fields.find? (fun kv => kv.fst == "outcome") = none →
            Json.getField fields "outcome" = Json.null)) := by
  refine ⟨?_, ?_, ?_, ?_⟩
  · simpa [process_audit_logs] using auditFold parse events []
  · intro r m h
    simp [auditProj, h]
  · intro r j h hne
    cases j <;> simp [auditProj, h]
    exact absurd rfl (hne _)
  · intro r fields h
    refine ⟨by simp [auditProj, h], ?_⟩
    intro hfind
    simp [Json.getField, hfind]

/-- Witness for C7: under a parse that accepts only the empty object, a
non-JSON record projects to nothing and an empty-object record projects
to an event whose `outcome` is `null`. -/
theorem audit_events_projection_witness :
    auditProj parseEmptyObj { timestamp := 5, message := "not json" } = none
    ∧ auditProj parseEmptyObj { timestamp := 6, message := "{}" } = some
        { timestamp := 6
          userId := Json.getField [] "userId"
          action := Json.getField [] "action"
          resourceType := Json.getField [] "resourceType"
          resourceId := Json.getField [] "resourceId"
          outcome := Json.getField [] "outcome" }
    ∧ Json.getField [] "outcome" = Json.null :=
  have h := audit_events_projection parseEmptyObj []
  have h4 := h.2.2.2 { timestamp := 6, message := "{}" } [] rfl
  ⟨h.2.1 { timestamp := 5, message := "not json" } "Expecting value" rfl,
   h4.1, h4.2 rfl⟩

/-- A list starts with itself. -/
theorem leadsWith_self (p : List Char) : leadsWith p p = true := by
  induction p with
  | nil => rfl
  | cons c cs ih => simp [leadsWith, ih]

/-- A pattern occurs in any list that ends with it. -/
theorem occursIn_append_self (xs pat : List Char) :
    occursIn pat (xs ++ pat) = true := by
  induction xs with
  | nil =>
      cases pat with
      | nil => rfl
      | cons c cs => simp [occursIn, leadsWith_self]
  | cons x xs ih => simp [occursIn, ih]

/-- C2: the handler answers 200 with the static confirmation body
exactly when the whole pipeline (decode and every sink call) completed
without raising; any raised error `m` instead yields 500 with `m`
embedded in the body; and the handler never propagates — every response
is a 200 or a 500. -/
theorem handler_response_contract (env : Env) (e : Event) :
    (handler env e
        = { statusCode := 200, body := "Log processing completed successfully" }
      ↔ runPipeline env e = Except.ok ())
    ∧ (∀ m : String, runPipeline env e = Except.error m →
        handler env e = { statusCode := 500, body := "Error processing logs: " ++ m }
        ∧ strContains (handler env e).body m = true)
    ∧ ((handler env e).statusCode = 200 ∨ (handler env e).statusCode = 500) := by
  refine ⟨?_, ?_, ?_⟩
  · constructor
    · intro h
      cases hr : runPipeline env e with
      | ok u => cases u; rfl
      | error m => simp [handler, hr] at h
    · intro h
      simp [handler, h]
  · intro m h
    refine ⟨by simp [handler, h], ?_⟩
    simp only [handler, h]
    simpa [strContains, String.data_append] using
      occursIn_append_self "Error processing logs: ".data m.data
  · cases hr : runPipeline env e with
    | ok u => left; simp [handler, hr]
    | error m => right; simp [handler, hr]

/-- Witness for C2: with a decode that raises "boom", the handler
returns the 500 response embedding "boom"; with an all-succeeding
environment it returns the 200 response. -/
theorem handler_response_contract_witness :
    (handler (decodeFailEnv "boom") { data := "garbage" }
        = { statusCode := 500, body := "Error processing logs: boom" }
      ∧ strContains (handler (decodeFailEnv "boom") { data := "garbage" }).body "boom" = true)
    ∧ handler (allOkEnv { logGroup := "g", logStream := "s", logEvents := [] }) { data := "x" }
        = { statusCode := 200, body := "Log processing completed successfully" } :=
  ⟨(handler_response_contract (decodeFailEnv "boom") { data := "garbage" }).2.1 "boom" rfl,
   (handler_response_contract
      (allOkEnv { logGroup := "g", logStream := "s", logEvents := [] }) { data := "x" }).1.mpr rfl⟩

/-- If running a call list completed, every call in it succeeded. -/
theorem runCalls_ok (env : Env) (calls : List SinkCall)
    (h : runCalls env calls = Except.ok ()) :
    ∀ c ∈ calls, env.runSink c = Except.ok () := by
  induction calls with
  | nil => intro c hc; cases hc
  | cons d ds ih =>
      intro c hc
      cases hs : env.runSink d with
      | error m => rw [runCalls, hs] at h; cases h
      | ok u =>
          cases hc with
          | head => cases u; exact hs
          | tail _ hm =>
              rw [runCalls, hs] at h
              exact ih h c hm

/-- C3: after a successful decode, the invocation's outward calls are
exactly the calls of the single extractor selected by the classifier
followed by the raw-batch store — one extractor for a known category,
none for `unknown` — so the raw batch is stored in every invocation that
completes, whatever the category. -/
theorem single_extractor_and_raw_store (env : Env) (e : Event) (batch : LogBatch)
    (hdec : env.decode e = Except.ok batch) :
    SinkCall.storeRaw batch ∈ pipeline_calls env.parse batch
    ∧ (classify batch.logGroup = Category.application →
        pipeline_calls env.parse batch
          = app_sink_calls (process_application_logs batch.logEvents)
              ++ [SinkCall.storeRaw batch])
    ∧ (classify batch.logGroup = Category.security →
        pipeline_calls env.parse batch
          = sec_sink_calls (process_security_logs batch.logEvents)
              ++ [SinkCall.storeRaw batch])
    ∧ (classify batch.logGroup = Category.audit →
        pipeline_calls env.parse batch
          = audit_sink_calls (process_audit_logs env.parse batch.logEvents)
              ++ [SinkCall.storeRaw batch])
    ∧ (classify batch.logGroup = Category.unknown →
        pipeline_calls env.parse batch = [SinkCall.storeRaw batch])
    ∧ (runPipeline env e = Except.ok () →
        env.runSink (SinkCall.storeRaw batch) = Except.ok ()) := by
  refine ⟨?_, ?_, ?_, ?_, ?_, ?_⟩
  · unfold pipeline_calls
    exact List.mem_append_right _ (List.mem_singleton.mpr rfl)
  · intro h; simp [pipeline_calls, extraction_calls, h]
  · intro h; simp [pipeline_calls, extraction_calls, h]
  · intro h; simp [pipeline_calls, extraction_calls, h]
  · intro h; simp [pipeline_calls, extraction_calls, h]
  · intro h
    rw [runPipeline, hdec] at h
    exact runCalls_ok env _ h _
      (List.mem_append_right _ (List.mem_singleton.mpr rfl))

/-- Witness for C3: in an all-succeeding environment with an unknown
log group, the raw store is among the calls, it is the only call, and it
was executed. -/
theorem single_extractor_and_raw_store_witness :
    SinkCall.storeRaw { logGroup := "g", logStream := "s", logEvents := [] }
        ∈ pipeline_calls (allOkEnv { logGroup := "g", logStream := "s", logEvents := [] }).parse
            { logGroup := "g", logStream := "s", logEvents := [] }
    ∧ pipeline_calls (allOkEnv { logGroup := "g", logStream := "s", logEvents := [] }).parse
          { logGroup := "g", logStream := "s", logEvents := [] }
        = [SinkCall.storeRaw { logGroup := "g", logStream := "s", logEvents := [] }]
    ∧ (allOkEnv { logGroup := "g", logStream := "s", logEvents := [] }).runSink
          (SinkCall.storeRaw { logGroup := "g", logStream := "s", logEvents := [] })
        = Except.ok () :=
  have h := single_extractor_and_raw_store
    (allOkEnv { logGroup := "g", logStream := "s", logEvents := [] }) { data := "x" }
    { logGroup := "g", logStream := "s", logEvents := [] } rfl
  ⟨h.1, h.2.2.2.2.1 (by decide), h.2.2.2.2.2 rfl⟩

/-- C9: each extractor is a pure function of the record sequence — the
embedding of each loop is a fold of a state-free step, so a second run
on the same sequence returns the identical result, and each result is
fully determined record-by-record: the counts are pointwise counts and
the sample/activity/event lists are pointwise projections of the input
records, in input order (the source batch is never written to). -/
theorem extractors_pure_deterministic
    (parse : String → Except String Json) (events : List LogRecord) :
    (process_application_logs events = process_application_logs events
      ∧ process_security_logs events = process_security_logs events
      ∧ process_audit_logs parse events = process_audit_logs parse events)
    ∧ (process_application_logs events
        = { error_count := events.countP (fun r => occursIn "ERROR".data r.message.data)
            performance_metrics := events.filterMap appProj })
    ∧ (process_security_logs events
        = { failed_auth_count :=
              events.countP
                (fun r => occursIn "authentication failed".data (lowerChars r.message.data))
            suspicious_activities := events.filterMap secProj })
    ∧ process_audit_logs parse events = events.filterMap (auditProj parse) := by
  refine ⟨⟨rfl, rfl, rfl⟩, ?_, ?_, ?_⟩
  · have h := appFold events { error_count := 0, performance_metrics := [] }
    cases hres : process_application_logs events with
    | mk ec pm =>
        rw [process_application_logs] at hres
        rw [hres] at h
        simp at h
        simp [h.1, h.2]
  · have h := secFold events { failed_auth_count := 0, suspicious_activities := [] }
    cases hres : process_security_logs events with
    | mk fc sa =>
        rw [process_security_logs] at hres
        rw [hres] at h
        simp at h
        simp [h.1, h.2]
  · simpa [process_audit_logs] using auditFold parse events []

/-- Taking as many elements as the digit run is the digit run. -/
theorem take_length_takeWhile (p : Char → Bool) (s : List Char) :
    s.take (s.takeWhile p).length = s.takeWhile p := by
  induction s with
  | nil => rfl
  | cons c cs ih =>
      by_cases h : p c
      · simp [List.takeWhile_cons, h, List.take_succ_cons, ih]
      · simp [List.takeWhile_cons, h]

/-- Dropping as many elements as the digit run leaves the remainder. -/
theorem drop_length_takeWhile (p : Char → Bool) (s : List Char) :
    s.drop (s.takeWhile p).length = s.dropWhile p := by
  induction s with
  | nil => rfl
  | cons c cs ih =>
      by_cases h : p c
      · simp [List.takeWhile_cons, List.dropWhile_cons, h, ih]
      · simp [List.takeWhile_cons, List.dropWhile_cons, h]

/-- A full-length all-`p` prefix cannot be longer than the maximal
`p`-run: the greedy run covers every matching prefix. -/
theorem le_length_takeWhile (p : Char → Bool) :
    ∀ (L : Nat) (s : List Char), (s.take L).length = L → (s.take L).all p = true →
      L ≤ (s.takeWhile p).length := by
  intro L
  induction L with
  | zero => intro s _ _; exact Nat.zero_le _
  | succ K ih =>
      intro s hlen hall
      cases s with
      | nil => simp at hlen
      | cons c cs =>
          rw [List.take_succ_cons] at hlen hall
          rw [List.length_cons] at hlen
          rw [List.all_cons, Bool.and_eq_true] at hall
          rw [List.takeWhile_cons, if_pos hall.1, List.length_cons]
          exact Nat.succ_le_succ (ih cs (Nat.succ_injective hlen) hall.2)

/-- Any element strictly inside the maximal `p`-run satisfies `p`. -/
theorem drop_head_sat (p : Char → Bool) :
    ∀ (s : List Char) (L : Nat) (d : Char) (t : List Char),
      s.drop L = d :: t → L < (s.takeWhile p).length → p d = true := by
  intro s
  induction s with
  | nil => intro L d t hd _; rw [List.drop_nil] at hd; cases hd
  | cons c cs ih =>
      intro L d t hd hl
      by_cases h : p c
      · cases L with
        | zero =>
            rw [List.drop_zero] at hd
            injection hd with e1 _
            rw [← e1]
            exact h
        | succ K =>
            rw [List.drop_succ_cons] at hd
            rw [List.takeWhile_cons, if_pos h, List.length_cons] at hl
            exact ih K d t hd (Nat.lt_of_succ_lt_succ hl)
      · rw [List.takeWhile_cons, if_neg h] at hl
        simp at hl

/-- The only lists that start with "ms" are `'m' :: 's' :: _`. -/
theorem leadsWith_ms (s : List Char) (h : leadsWith ['m', 's'] s = true) :
    ∃ t, s = 'm' :: 's' :: t := by
  cases s with
  | nil => simp [leadsWith] at h
  | cons a u =>
      cases u with
      | nil => simp [leadsWith] at h
      | cons b t =>
          simp [leadsWith] at h
          exact ⟨t, by rw [← h.1, ← h.2]⟩

/-- A `\d+ms` occurrence at position `i` of `s` is one at position 0 of
`s.drop i`. -/
theorem msPatternAt_shift_zero (s : List Char) (i L : Nat) :
    msPatternAt s i L ↔ msPatternAt (s.drop i) 0 L := by
  unfold msPatternAt
  rw [List.drop_zero]

/-- A `\d+ms` occurrence shifts across a `cons`. -/
theorem msPatternAt_cons_succ (c : Char) (cs : List Char) (j L : Nat) :
    msPatternAt (c :: cs) (j + 1) L ↔ msPatternAt cs j L := by
  unfold msPatternAt
  rw [List.drop_succ_cons]

/-- Introduction of an occurrence at position 0: a digit head whose
maximal digit run is followed by "ms". -/
theorem msPatternAt_zero_intro (c : Char) (cs : List Char)
    (hd : c.isDigit = true)
    (hms : leadsWith ['m', 's'] ((c :: cs).dropWhile Char.isDigit) = true) :
    msPatternAt (c :: cs) 0 ((c :: cs).takeWhile Char.isDigit).length := by
  refine ⟨?_, ?_, ?_, ?_⟩
  · rw [List.takeWhile_cons, if_pos hd, List.length_cons]
    exact Nat.succ_le_succ (Nat.zero_le _)
  · rw [List.drop_zero, take_length_takeWhile]
  · rw [List.drop_zero, take_length_takeWhile]
    exact List.all_takeWhile
  · rw [List.drop_zero, drop_length_takeWhile]
    exact hms

/-- Elimination of an occurrence at position 0: the head is a digit,
"ms" follows the maximal digit run, and the occurrence's length is
exactly the maximal run's (the greedy match is the only one from a
given start). -/
theorem msPatternAt_zero_elim (s : List Char) (L : Nat) (h : msPatternAt s 0 L) :
    ∃ c cs, s = c :: cs ∧ c.isDigit = true
      ∧ leadsWith ['m', 's'] (s.dropWhile Char.isDigit) = true
      ∧ L = (s.takeWhile Char.isDigit).length := by
  obtain ⟨h1, h2, h3, h4⟩ := h
  rw [List.drop_zero] at h2 h3 h4
  cases s with
  | nil =>
      rw [List.take_nil] at h2
      simp at h2
      omega
  | cons c cs =>
      have hle : L ≤ ((c :: cs).takeWhile Char.isDigit).length :=
        le_length_takeWhile _ L _ h2 h3
      have hge : ((c :: cs).takeWhile Char.isDigit).length ≤ L := by
        by_contra hlt
        push_neg at hlt
        obtain ⟨t, ht⟩ := leadsWith_ms _ h4
        have hm := drop_head_sat Char.isDigit (c :: cs) L 'm' ('s' :: t) ht hlt
        exact absurd hm (by decide)
      have hLn : L = ((c :: cs).takeWhile Char.isDigit).length := Nat.le_antisymm hle hge
      have hc : c.isDigit = true := by
        cases L with
        | zero => omega
        | succ K =>
            rw [List.take_succ_cons, List.all_cons, Bool.and_eq_true] at h3
            exact h3.1
      refine ⟨c, cs, rfl, hc, ?_, hLn⟩
      rw [← drop_length_takeWhile, ← hLn]
      exact h4

/-- From one start position there is only one `\d+ms` occurrence
length: the greedy one. -/
theorem msPatternAt_length_eq (s : List Char) (i L M : Nat)
    (h : msPatternAt s i L) (h' : msPatternAt s i M) : L = M := by
  rw [msPatternAt_shift_zero] at h h'
  obtain ⟨c, cs, _, _, _, hL⟩ := msPatternAt_zero_elim _ _ h
  obtain ⟨c', cs', _, _, _, hM⟩ := msPatternAt_zero_elim _ _ h'
  rw [hL, hM]

/-- When the regex search fails there is no `\d+ms` occurrence. -/
theorem findMs_none_sound : ∀ s : List Char, findMs s = none →
    ∀ i L, ¬ msPatternAt s i L := by
  intro s
  induction s with
  | nil =>
      intro _ i L h
      obtain ⟨h1, h2, _, _⟩ := h
      rw [List.drop_nil, List.take_nil] at h2
      simp at h2
      omega
  | cons c cs ih =>
      intro hf i L h
      rw [findMs] at hf
      by_cases hc : (c.isDigit && leadsWith ['m', 's']
          (List.dropWhile Char.isDigit (c :: cs))) = true
      · rw [if_pos hc] at hf; cases hf
      · rw [if_neg hc] at hf
        cases i with
        | zero =>
            obtain ⟨c', cs', he, hd, hms, _⟩ := msPatternAt_zero_elim _ _ h
            injection he with e1 e2
            subst e1
            subst e2
            exact hc (by rw [Bool.and_eq_true]; exact ⟨hd, hms⟩)
        | succ j => exact ih hf j L ((msPatternAt_cons_succ c cs j L).mp h)

/-- When the regex search returns a run, that run is a `\d+ms`
occurrence sitting at the leftmost occurrence position. -/
theorem findMs_some_sound : ∀ s run : List Char, findMs s = some run →
    ∃ i, msPatternAt s i run.length ∧ run = (s.drop i).take run.length
      ∧ ∀ j M, msPatternAt s j M → i ≤ j := by
  intro s
  induction s with
  | nil => intro run h; rw [findMs] at h; cases h
  | cons c cs ih =>
      intro run h
      rw [findMs] at h
      by_cases hc : (c.isDigit && leadsWith ['m', 's']
          (List.dropWhile Char.isDigit (c :: cs))) = true
      · rw [if_pos hc] at h
        injection h with hrun
        subst hrun
        rw [Bool.and_eq_true] at hc
        have hd := hc.1
        have hms := hc.2
        refine ⟨0, msPatternAt_zero_intro c cs hd hms, ?_, ?_⟩
        · rw [List.drop_zero, take_length_takeWhile]
        · intro j M _
          exact Nat.zero_le j
      · rw [if_neg hc] at h
        obtain ⟨i, hp, hr, hmin⟩ := ih run h
        refine ⟨i + 1, (msPatternAt_cons_succ c cs i run.length).mpr hp, ?_, ?_⟩
        · rw [List.drop_succ_cons]
          exact hr
        · intro j M hj
          cases j with
          | zero =>
              obtain ⟨c', cs', he, hd, hms, _⟩ := msPatternAt_zero_elim _ _ hj
              injection he with e1 e2
              subst e1
              subst e2
              exact absurd (by rw [Bool.and_eq_true]; exact ⟨hd, hms⟩ : (_ && _) = true) hc
          | succ k =>
              exact Nat.succ_le_succ (hmin k M ((msPatternAt_cons_succ c cs k M).mp hj))

/-- A `\d+ms` occurrence exists exactly when the regex search succeeds. -/
theorem findMs_some_of_pattern (s : List Char) (i L : Nat) (h : msPatternAt s i L) :
    ∃ run, findMs s = some run := by
  cases hf : findMs s with
  | some run => exact ⟨run, rfl⟩
  | none => exact absurd h (findMs_none_sound s hf i L)

/-- Positions and lengths of `\d+ms` occurrences are bounded by the
string length. -/
theorem msPatternAt_bound (s : List Char) (j M : Nat) (h : msPatternAt s j M) :
    j < s.length ∧ M ≤ s.length := by
  obtain ⟨h1, h2, _, _⟩ := h
  rw [List.length_take, List.length_drop] at h2
  omega

/-- C4: a record whose message contains "Request completed" contributes
exactly one sample whose duration is `extract_duration` of the message;
a record without it contributes none; and `extract_duration` yields 0
when no digits-then-"ms" occurrence exists, else the base-10 value of an
occurrence's digit run. -/
theorem request_completed_samples (events : List LogRecord) :
    (process_application_logs events).performance_metrics = events.filterMap appProj
    ∧ (∀ r : LogRecord, occursIn "Request completed".data r.message.data = true →
        appProj r = some { timestamp := r.timestamp
                           duration := extract_duration r.message
                           message := r.message })
    ∧ (∀ r : LogRecord, occursIn "Request completed".data r.message.data = false →
        appProj r = none)
    ∧ (∀ msg : String, (∀ i L, ¬ msPatternAt msg.data i L) → extract_duration msg = 0)
    ∧ (∀ (msg : String) (i L : Nat), msPatternAt msg.data i L →
        ∃ j M, msPatternAt msg.data j M
          ∧ extract_duration msg = digitsVal ((msg.data.drop j).take M)) := by
  refine ⟨process_application_logs_samples events, ?_, ?_, ?_, ?_⟩
  · intro r h
    simp [appProj, h]
  · intro r h
    simp [appProj, h]
  · intro msg h
    unfold extract_duration
    cases hf : findMs msg.data with
    | none => rfl
    | some run =>
        obtain ⟨i, hp, _, _⟩ := findMs_some_sound msg.data run hf
        exact absurd hp (h i run.length)
  · intro msg i L h
    obtain ⟨run, hf⟩ := findMs_some_of_pattern msg.data i L h
    obtain ⟨j, hp, hr, _⟩ := findMs_some_sound msg.data run hf
    refine ⟨j, run.length, hp, ?_⟩
    unfold extract_duration
    rw [hf, ← hr]

/-- Witness for C4: "Request completed in 100ms" yields a sample;
"INFO start" yields none; "Request completed, no digits" still gives
duration 0; and the 100ms message has an occurrence realizing its
extracted duration. -/
theorem request_completed_samples_witness :
    appProj { timestamp := 3, message := "Request completed in 100ms" }
      = some { timestamp := 3
               duration := extract_duration "Request completed in 100ms"
               message := "Request completed in 100ms" }
    ∧ appProj { timestamp := 4, message := "INFO start" } = none
    ∧ extract_duration "Request completed, no digits" = 0
    ∧ ∃ j M, msPatternAt "Request completed in 100ms".data j M
        ∧ extract_duration "Request completed in 100ms"
          = digitsVal (("Request completed in 100ms".data.drop j).take M) :=
  ⟨(request_completed_samples []).2.1
      { timestamp := 3, message := "Request completed in 100ms" } (by decide),
   (request_completed_samples []).2.2.1
      { timestamp := 4, message := "INFO start" } (by decide),
   (request_completed_samples []).2.2.2.1 "Request completed, no digits"
      (findMs_none_sound "Request completed, no digits".data (by decide)),
   (request_completed_samples []).2.2.2.2 "Request completed in 100ms" 21 3 (by decide)⟩

/-- C10: when a message has digit-run-then-"ms" occurrences, the
extracted duration is the base-10 value of the digit run of the leftmost
occurrence. -/
theorem extract_duration_leftmost (msg : String) (i L : Nat)
    (h : msPatternAt msg.data i L)
    (hmin : ∀ j M, msPatternAt msg.data j M → i ≤ j) :
    extract_duration msg = digitsVal ((msg.data.drop i).take L) := by
  obtain ⟨run, hf⟩ := findMs_some_of_pattern msg.data i L h
  obtain ⟨j, hp, hr, hjmin⟩ := findMs_some_sound msg.data run hf
  have hij : i = j := Nat.le_antisymm (hmin j run.length hp) (hjmin i L h)
  subst hij
  have hL : L = run.length := msPatternAt_length_eq msg.data i L run.length h hp
  unfold extract_duration
  rw [hf, hL, ← hr]

/-- Witness for C10: in "a 5ms b 100ms" the occurrences sit at
positions 2, 8, 9 and 10; the leftmost (position 2, the run "5") gives
the extracted duration. -/
theorem extract_duration_leftmost_witness :
    extract_duration "a 5ms b 100ms"
      = digitsVal (("a 5ms b 100ms".data.drop 2).take 1) :=
  extract_duration_leftmost "a 5ms b 100ms" 2 1 (by decide)
    (fun j M hp => by
      have hb := msPatternAt_bound "a 5ms b 100ms".data j M hp
      have key : ∀ j, j < 13 → ∀ M, M ≤ 13 →
          msPatternAt "a 5ms b 100ms".data j M → 2 ≤ j := by decide
      exact key j (by simpa using hb.1) M (by simpa using hb.2) hp)
